import Mathlib

/-!
Verification of the WebSDR VCV client against its specification.

The definitions below are a shallow embedding of the repository's core:
the audio ring buffer and resampler of `src/modules/WebSDRModule.cpp`
and the WebSocket client of `src/network/WebSDRClient.cpp`.
Machine floats carrying PCM samples are modelled as rationals: every value
the code manipulates (int16 / 32768, sums and products thereof at the
scales involved) is exactly representable, so the rational model is exact
for the properties stated here.  Byte buffers are lists of naturals < 256.
-/

namespace WebSDR

/-! ### Audio ring buffer (WebSDRModule.cpp, audio callback lines 80-93)

`audioBuffer` is a `std::vector<float>` of fixed size (48000), accessed
through `readPos`/`writePos` taken modulo the size.  We model the backing
store as a function from indices to `Option ℚ`: `none` marks a slot that
has never been written (the C++ vector zero-fills, which `slotValue`
reflects), letting us state "no read observes a never-written slot". -/

structure RingBuffer where
  cap : Nat
  buf : Nat → Option ℚ
  readPos : Nat
  writePos : Nat

/-- Fresh buffer as allocated by `audioBuffer.resize(cap)`: nothing written. -/
def freshRing (cap : Nat) : RingBuffer :=
  { cap := cap, buf := fun _ => none, readPos := 0, writePos := 0 }

/-- The float stored in a slot: a written sample, or the vector's 0.0 fill. -/
def slotValue (rb : RingBuffer) (i : Nat) : ℚ :=
  (rb.buf i).getD 0

/-- One iteration of the audio-callback write loop:
`audioBuffer[writePos] = samples[i]; writePos = (writePos+1) % size;
 if (writePos == readPos) readPos = (readPos+1) % size;` -/
def writeSample (rb : RingBuffer) (s : ℚ) : RingBuffer :=
  if (rb.writePos + 1) % rb.cap = rb.readPos then
    { cap := rb.cap, buf := Function.update rb.buf rb.writePos (some s),
      readPos := (rb.readPos + 1) % rb.cap, writePos := (rb.writePos + 1) % rb.cap }
  else
    { cap := rb.cap, buf := Function.update rb.buf rb.writePos (some s),
      readPos := rb.readPos, writePos := (rb.writePos + 1) % rb.cap }

/-- The whole callback body: write each sample of the batch in order. -/
def writeSamples (rb : RingBuffer) (xs : List ℚ) : RingBuffer :=
  xs.foldl writeSample rb

/-- One consumer read step (the body of the advance loop in
`getResampledAudio`): take the slot at `readPos`, advance `readPos`. -/
def readAdvance (rb : RingBuffer) : RingBuffer :=
  { rb with readPos := (rb.readPos + 1) % rb.cap }

/-- Repeatedly read while `readPos ≠ writePos`, with enough fuel to drain
the buffer; returns the observed slots in read order. -/
def readWhile : Nat → RingBuffer → List (Option ℚ)
  | 0, _ => []
  | fuel + 1, rb =>
    if rb.readPos = rb.writePos then []
    else rb.buf rb.readPos :: readWhile fuel (readAdvance rb)

/-- Drain the buffer: read while the read position differs from the write
position (`cap` steps of fuel always suffice for valid positions). -/
def readAll (rb : RingBuffer) : List (Option ℚ) :=
  readWhile rb.cap rb

/-! Abstraction used to reason about the ring: the readable contents. -/

/-- Number of readable slots between `readPos` and `writePos`. -/
def availCount (rb : RingBuffer) : Nat :=
  if rb.readPos ≤ rb.writePos then rb.writePos - rb.readPos
  else rb.writePos + rb.cap - rb.readPos

/-- The readable contents, in read order. -/
def ringContents (rb : RingBuffer) : List (Option ℚ) :=
  (List.range (availCount rb)).map fun i => rb.buf ((rb.readPos + i) % rb.cap)

/-- Valid state: positions in range (invariant of all ring operations). -/
def ringValid (rb : RingBuffer) : Prop :=
  0 < rb.cap ∧ rb.readPos < rb.cap ∧ rb.writePos < rb.cap

/-- Abstract effect of one write on the readable contents. -/
def absStep (cap : Nat) (l : List (Option ℚ)) (s : ℚ) : List (Option ℚ) :=
  if l.length = cap - 1 then (l ++ [some s]).drop 1 else l ++ [some s]

/-- The last `n` elements of a list. -/
def takeLast (n : Nat) (l : List (Option ℚ)) : List (Option ℚ) :=
  l.drop (l.length - n)

/-- Concrete write sequence used to instantiate the ring-buffer claims at
the module's actual capacity (48000): 48001 distinct samples. -/
def bigInput : List ℚ :=
  (List.range 48001).map (Nat.cast : Nat → ℚ)

/-! ### Resampler (WebSDRModule.cpp, `getResampledAudio`, lines 189-220)

State: the shared ring plus `lastSample` and `resamplePhase` members. -/

structure ModuleState where
  ring : RingBuffer
  lastSample : ℚ
  resamplePhase : ℚ

/-- Module state right after construction: `audioBuffer.resize(48000)`,
`readPos = writePos = 0`, `lastSample = 0.0f`, `resamplePhase = 0.0f`. -/
def initModule : ModuleState :=
  { ring := freshRing 48000, lastSample := 0, resamplePhase := 0 }

/-- The audio callback applied to a whole state: ring write only. -/
def writeToModule (s : ModuleState) (xs : List ℚ) : ModuleState :=
  { s with ring := writeSamples s.ring xs }

/-- The advance loop of `getResampledAudio`:
`for (i < advance) if (readPos != writePos) { lastSample = audioBuffer[readPos];
 readPos = (readPos+1)%size; }` -/
def advanceLoop : Nat → RingBuffer → ℚ → RingBuffer × ℚ
  | 0, rb, last => (rb, last)
  | n + 1, rb, last =>
    if rb.readPos ≠ rb.writePos then
      advanceLoop n (readAdvance rb) (slotValue rb rb.readPos)
    else
      advanceLoop n rb last

/-- `WebSDRModule::getResampledAudio(engineRate)`: phase accumulation,
integer-part advance (the C cast `(int)resamplePhase` truncates; the
value is ≥ 1 and nonnegative in this branch, hence the floor), peek for
`nextSample` (held `lastSample` on an empty buffer), linear interpolation.
Returns the output sample and the updated module state. -/
def getResampledAudio (engineRate : ℚ) (s : ModuleState) : ℚ × ModuleState :=
  let resampleRatio := 12000 / engineRate
  let phase1 := s.resamplePhase + resampleRatio
  let next :=
    if 1 ≤ phase1 then
      let adv := (⌊phase1⌋).toNat
      let rl := advanceLoop adv s.ring s.lastSample
      (rl.1, rl.2, phase1 - (adv : ℚ))
    else
      (s.ring, s.lastSample, phase1)
  let ring1 := next.1
  let last1 := next.2.1
  let phase2 := next.2.2
  let nextSample :=
    if ring1.readPos ≠ ring1.writePos then slotValue ring1 ring1.readPos else last1
  (last1 + (nextSample - last1) * phase2,
   { ring := ring1, lastSample := last1, resamplePhase := phase2 })

/-- Pull `k` consecutive output samples (one `process()` tick each). -/
def pullK (engineRate : ℚ) : Nat → ModuleState → List ℚ
  | 0, _ => []
  | k + 1, s =>
    let r := getResampledAudio engineRate s
    r.1 :: pullK engineRate k r.2

/-! ### PCM decoding (WebSDRClient.cpp, `processAudioPacket`, lines 259-286) -/

/-- `(int16_t)(data[i] | (data[i+1] << 8))`: little-endian pair to a signed
16-bit value (two's complement reinterpretation of the 16-bit pattern).
For the byte values the buffer holds (`lo, hi < 256`) the C expression
`lo | (hi << 8)` is exactly `lo + 256 * hi`. -/
def bytesToSample (lo hi : Nat) : ℤ :=
  if lo + 256 * hi < 32768 then ((lo + 256 * hi : Nat) : ℤ)
  else ((lo + 256 * hi : Nat) : ℤ) - 65536

/-- The decode loop `for (i; i + 1 < len; i += 2)`: consecutive pairs,
each normalized by `sample / 32768.0f` (exact in binary floating point,
hence the rational model is exact); a trailing odd byte is dropped. -/
def pcmDecode : List Nat → List ℚ
  | lo :: hi :: rest => (bytesToSample lo hi : ℚ) / 32768 :: pcmDecode rest
  | _ => []

/-- The four ASCII bytes of the control prefix `"MSG "`. -/
def msgPrefixBytes : List Nat := [0x4D, 0x53, 0x47, 0x20]

/-- `WebSDRClient::processAudioPacket`: skip (produce no samples) iff
`len > 4 && memcmp(data, "MSG ", 4) == 0`; otherwise decode PCM pairs.
The audio callback is then invoked exactly when the result is nonempty
(`if (!samples.empty()) ... audioCallback(...)`). -/
def processAudioPacket (data : List Nat) : List ℚ :=
  if 4 < data.length ∧ data.take 4 = msgPrefixBytes then []
  else pcmDecode data

/-! ### Outbound frames (WebSDRClient.cpp, `sendWebSocketFrame`, lines 288-313) -/

/-- The fixed masking key `{0x12, 0x34, 0x56, 0x78}`. -/
def maskKey : List Nat := [0x12, 0x34, 0x56, 0x78]

/-- The masking loop `for (i = 0; i < data.size(); i++)
frame.push_back(data[i] ^ mask[i % 4]);`. -/
def maskBytes (data : List Nat) : List Nat :=
  (List.range data.length).map fun i => data.getD i 0 ^^^ maskKey.getD (i % 4) 0

/-- `WebSDRClient::sendWebSocketFrame`: byte 0 = `0x81` (FIN + text opcode),
byte 1 = `0x80 | length` only when `length < 126` (for such lengths the
bitwise or is exactly `0x80 + length`; otherwise the function refuses:
`return false`), then the 4 mask-key bytes, then the masked payload.
`none` models the refused send. -/
def sendWebSocketFrame (data : List Nat) : Option (List Nat) :=
  if data.length < 126 then
    some (0x81 :: (0x80 + data.length) :: (maskKey ++ maskBytes data))
  else
    none

/-! ### Substring matching (used by the receive loop and the handshake) -/

/-- Does `p` occur at the head of the second list? -/
def listStartsWith {α : Type} [DecidableEq α] : List α → List α → Bool
  | [], _ => true
  | _ :: _, [] => false
  | p :: ps, x :: xs => if p = x then listStartsWith ps xs else false

/-- Does `needle` occur anywhere in the list (`strstr` / `std::string::find`)? -/
def containsSub {α : Type} [DecidableEq α] (needle : List α) : List α → Bool
  | [] => listStartsWith needle []
  | x :: xs => listStartsWith needle (x :: xs) || containsSub needle xs

/-! ### Receive loop frame handling (WebSDRClient.cpp, lines 199-242)

One `recv` delivers `buffer[0..received)`; the loop body parses it as a
single WebSocket frame.  `RecvAction` records what that iteration does. -/

inductive RecvAction where
  /-- Nothing dispatched: header shorter than 2 bytes, masked inbound
  frame, or no payload byte after the header (`headerLen < received` fails). -/
  | dropped : RecvAction
  /-- The `payloadLen == 127 && received >= 10` branch: `continue`. -/
  | skippedLarge : RecvAction
  /-- Binary frame: `processAudioPacket(payload, dataLen)` ran with these
  decoded samples (the callback fires iff the list is nonempty). -/
  | audio : List ℚ → RecvAction
  /-- Text frame whose bytes contain "MSG": suppressed from logging. -/
  | textSuppressed : List Nat → RecvAction
  /-- Text frame logged as a server message. -/
  | textShown : List Nat → RecvAction
  /-- Ping: these exact bytes are sent back on the socket as the reply. -/
  | pong : List Nat → RecvAction
  /-- Close frame: `shouldStop = true; break`. -/
  | close : RecvAction
  /-- Unmasked frame with an opcode outside {1,2,8,9}: no branch taken. -/
  | ignoredOpcode : RecvAction
deriving DecidableEq

/-- Byte access `buffer[i]` (all source accesses are within `received`). -/
def byteAt (buffer : List Nat) (i : Nat) : Nat := buffer.getD i 0

/-- The payload dispatch of the receive loop, after the header length has
been decoded: the `if (!masked && headerLen < received)` block. -/
def dispatchFrame (buffer : List Nat) (payloadLen headerLen opcode : Nat)
    (masked : Bool) : RecvAction :=
  if masked = false ∧ headerLen < buffer.length then
    let dataLen := min payloadLen (buffer.length - headerLen)
    let payload := (buffer.drop headerLen).take dataLen
    if opcode = 2 then .audio (processAudioPacket payload)
    else if opcode = 1 then
      if containsSub [0x4D, 0x53, 0x47] payload then .textSuppressed payload
      else .textShown payload
    else if opcode = 9 then .pong (buffer.set 0 0x8A)
    else if opcode = 8 then .close
    else .ignoredOpcode
  else .dropped

/-- One receive-loop iteration on a `recv` result of `received > 0` bytes
(lines 202-242): parse the 2-byte base header, decode the length class
(7-bit inline; 16-bit extended when `126` and at least 4 bytes arrived;
`continue` when `127` and at least 10 bytes arrived), then dispatch.
The header bit operations are written in their arithmetic forms, exact
for every natural: `b & 0x0F = b % 16`, `b & 0x7F = b % 128`, and
`b & 0x80 != 0` is `b / 128 % 2 = 1`; the big-endian extended length
`(buffer[2] << 8) | buffer[3]` is `buffer[2] * 256 + buffer[3]` for the
byte values `recv` delivers. -/
def handleReceived (buffer : List Nat) : RecvAction :=
  if 2 ≤ buffer.length then
    let opcode := byteAt buffer 0 % 16
    let masked := decide (byteAt buffer 1 / 128 % 2 = 1)
    let payloadLen7 := byteAt buffer 1 % 128
    if payloadLen7 = 126 ∧ 4 ≤ buffer.length then
      dispatchFrame buffer (byteAt buffer 2 * 256 + byteAt buffer 3) 4 opcode masked
    else if payloadLen7 = 127 ∧ 10 ≤ buffer.length then
      .skippedLarge
    else
      dispatchFrame buffer payloadLen7 2 opcode masked
  else .dropped

/-! ### Handshake outcome (WebSDRClient.cpp, `connect`, lines 89-127) -/

structure HandshakeOutcome where
  /-- Return value of `connect`. -/
  success : Bool
  /-- The `connected` flag (what `isConnected()` reports). -/
  connected : Bool
  /-- Whether `receiveThread = std::thread(&receiveLoop, ...)` ran. -/
  receiveLoopStarted : Bool
  /-- The post-upgrade command strings, in send order. -/
  commandsSent : List String
deriving DecidableEq

/-- The substring `strstr` looks for in the upgrade response. -/
def needle101 : List Char := "101 Switching Protocols".toList

/-- The session-initialization commands of the success branch, in order. -/
def initCommands : List String :=
  ["SET auth t=kiwi p=",
   "SET AR OK in=12000 out=44100",
   "SET squelch=0 max=0",
   "SET genattn=0",
   "SET mod=am low_cut=-4000 high_cut=4000 freq=7055.000",
   "SET keepalive",
   "SET AUDIO_COMP=0",
   "SET AUDIO_START=1"]

/-- The part of `connect` from the `recv` of the upgrade response on:
`received > 0`, the buffer is NUL-terminated at `received` and scanned by
`strstr` (which stops at any embedded NUL, modelled by `takeWhile`);
only the success branch starts the receive thread, sets `connected` and
sends the initialization commands; everything else closes the socket and
returns `false`. -/
def processHandshakeResponse (response : List Char) : HandshakeOutcome :=
  if 0 < response.length ∧
      containsSub needle101 (response.takeWhile fun c => c ≠ Char.ofNat 0) = true then
    { success := true, connected := true, receiveLoopStarted := true,
      commandsSent := initCommands }
  else
    { success := false, connected := false, receiveLoopStarted := false,
      commandsSent := [] }

/-! ### disconnect() ordering (WebSDRClient.cpp, lines 129-145)

`disconnect` is straight-line code; its effects are modelled as the
ordered trace of the statements executed. -/

inductive DisconnectEvent where
  /-- `shouldStop = true;` -/
  | raiseStopFlag : DisconnectEvent
  /-- `connected = false;` -/
  | clearConnected : DisconnectEvent
  /-- `close(socketFd);` -/
  | closeSocket : DisconnectEvent
  /-- `socketFd = -1;` -/
  | invalidateSocket : DisconnectEvent
  /-- `receiveThread.join();` (blocks until the receive loop has exited) -/
  | joinThread : DisconnectEvent
deriving DecidableEq, BEq

/-- The statement trace of `WebSDRClient::disconnect`, parameterized by
the two guards `socketFd >= 0` and `receiveThread.joinable()`. -/
def disconnectTrace (socketOpen joinable : Bool) : List DisconnectEvent :=
  [.raiseStopFlag, .clearConnected]
    ++ (if socketOpen then [.closeSocket, .invalidateSocket] else [])
    ++ (if joinable then [.joinThread] else [])

/-! ### Tuning commands (WebSDRClient.cpp, lines 147-184) -/

/-- Zero-padded three-digit rendering of `n < 1000`. -/
def pad3 (n : Nat) : String :=
  if n < 10 then "00" ++ toString n
  else if n < 100 then "0" ++ toString n
  else toString n

/-- Model of `std::fixed << std::setprecision(3)` applied to a value:
round to the nearest thousandth and print with exactly three decimals. -/
def fmtFixed3 (q : ℚ) : String :=
  let m : ℤ := round (q * 1000)
  (if m < 0 then "-" else "") ++ toString (m.natAbs / 1000) ++ "." ++ pad3 (m.natAbs % 1000)

/-- The command string built by `WebSDRClient::setFrequency` (line 153):
the frequency is converted to kHz and appended to a literal that always
re-sets `mod=am low_cut=-4000 high_cut=4000`. -/
def setFrequencyCmd (freq : ℚ) : String :=
  "SET mod=am low_cut=-4000 high_cut=4000 freq=" ++ fmtFixed3 (freq / 1000)

/-- `setFrequency`: `if (!connected) return;` else send the command frame. -/
def setFrequencySend (connected : Bool) (freq : ℚ) : Option String :=
  if connected then some (setFrequencyCmd freq) else none

/-- The mode-name translation of `WebSDRClient::setMode` (lines 165-170). -/
def kiwiMode (mode : String) : String :=
  if mode = "usb" then "usb"
  else if mode = "lsb" then "lsb"
  else if mode = "fm" then "nbfm"
  else if mode = "cw" then "cw"
  else "am"

/-- The command string built by `WebSDRClient::setMode` (line 173). -/
def setModeCmd (mode : String) : String :=
  "SET mod=" ++ kiwiMode mode ++ " low_cut=-4000 high_cut=4000"

/-- `setMode`: `if (!connected) return;` else send the command frame. -/
def setModeSend (connected : Bool) (mode : String) : Option String :=
  if connected then some (setModeCmd mode) else none

/-! Spec-side helpers for stating what a command does to the server's
demodulation mode: extract the value of the first `mod=` token. -/

/-- Characters of a token up to the next space. -/
def takeUntilSpace : List Char → List Char
  | [] => []
  | c :: cs => if c = ' ' then [] else c :: takeUntilSpace cs

/-- The value of the first `mod=` token of a command, if any. -/
def modOfList : List Char → Option (List Char)
  | [] => none
  | c :: cs =>
    if listStartsWith "mod=".toList (c :: cs) then some (takeUntilSpace (cs.drop 3))
    else modOfList cs

/-- `modOf` on a command string. -/
def modOf (cmd : String) : Option (List Char) := modOfList cmd.toList

/-- Server mode after applying a command ("the server applies settings as
received"): a command carrying a `mod=` token overwrites the mode. -/
def applyMod (cur : List Char) (cmd : String) : List Char :=
  (modOf cmd).getD cur

end WebSDR

namespace WebSDR

-- sanity checks (concrete traces, capacity 3)
example : readAll (writeSamples (freshRing 3) [1, 2, 3, 4]) = [some 3, some 4] := by decide
example : readAll (writeSamples (freshRing 3) [1, 2]) = [some 1, some 2] := by decide
example : processAudioPacket [0x00, 0x40, 0x00, 0xC0] = [1/2, -1/2] := by
  norm_num [processAudioPacket, pcmDecode, bytesToSample, msgPrefixBytes]
example : processAudioPacket [0x4D, 0x53, 0x47, 0x20] = [21325/32768, 8263/32768] := by
  norm_num [processAudioPacket, pcmDecode, bytesToSample, msgPrefixBytes]
example : processAudioPacket [0x4D, 0x53, 0x47, 0x20, 0x00] = [] := by decide
example : handleReceived [0x82, 0x04, 0x00, 0x40] = .audio [1/2] := by
  norm_num [handleReceived, dispatchFrame, byteAt, processAudioPacket, pcmDecode, bytesToSample,
    msgPrefixBytes]
example : handleReceived [0x82, 0x7F, 0x00, 0x40] = .audio [1/2] := by
  norm_num [handleReceived, dispatchFrame, byteAt, processAudioPacket, pcmDecode, bytesToSample,
    msgPrefixBytes]
example : handleReceived [0x82, 0x7F, 0, 0, 0, 0, 0, 0, 0, 0] = .skippedLarge := by decide
example : handleReceived [0x89, 0x01, 0x42] = .pong [0x8A, 0x01, 0x42] := by decide
example (rest : List Char) :
    modOfList ("SET mod=am low_cut=-4000 high_cut=4000 freq=".toList ++ rest) = some ['a', 'm'] := rfl

/-! ## Ring buffer lemmas: the readable contents under writes and reads -/

lemma length_ringContents (rb : RingBuffer) :
    (ringContents rb).length = availCount rb := by
  simp [ringContents]

lemma availCount_lt (rb : RingBuffer) (h : ringValid rb) : availCount rb < rb.cap := by
  obtain ⟨h0, hr, hw⟩ := h
  unfold availCount
  split <;> omega

lemma mod_twoCases (a c : Nat) (_hc : 0 < c) (h : a < 2 * c) :
    a % c = if a < c then a else a - c := by
  split
  · exact Nat.mod_eq_of_lt (by assumption)
  · rw [Nat.mod_eq_sub_mod (by omega)]
    exact Nat.mod_eq_of_lt (by omega)

lemma readAdvance_valid (rb : RingBuffer) (h : ringValid rb) : ringValid (readAdvance rb) := by
  obtain ⟨h0, hr, hw⟩ := h
  exact ⟨h0, Nat.mod_lt _ h0, hw⟩

lemma availCount_readAdvance (rb : RingBuffer) (h : ringValid rb)
    (hne : rb.readPos ≠ rb.writePos) :
    availCount (readAdvance rb) + 1 = availCount rb := by
  obtain ⟨h0, hr, hw⟩ := h
  have hm : (rb.readPos + 1) % rb.cap =
      if rb.readPos + 1 < rb.cap then rb.readPos + 1 else rb.readPos + 1 - rb.cap :=
    mod_twoCases _ _ h0 (by omega)
  simp only [availCount, readAdvance, hm]
  split_ifs <;> omega

lemma ringContents_cons (rb : RingBuffer) (h : ringValid rb)
    (hne : rb.readPos ≠ rb.writePos) :
    ringContents rb = rb.buf rb.readPos :: ringContents (readAdvance rb) := by
  have hav : availCount rb = availCount (readAdvance rb) + 1 :=
    (availCount_readAdvance rb h hne).symm
  obtain ⟨h0, hr, hw⟩ := h
  unfold ringContents
  rw [hav, List.range_succ_eq_map, List.map_cons, List.map_map]
  congr 1
  · simp [Nat.mod_eq_of_lt hr]
  · apply List.map_congr_left
    intro i _
    show rb.buf ((rb.readPos + (i + 1)) % rb.cap) =
      (readAdvance rb).buf (((readAdvance rb).readPos + i) % (readAdvance rb).cap)
    simp only [readAdvance, Nat.mod_add_mod]
    rw [show rb.readPos + (i + 1) = rb.readPos + 1 + i from by omega]

lemma readWhile_eq (fuel : Nat) (rb : RingBuffer) (h : ringValid rb)
    (hf : availCount rb ≤ fuel) : readWhile fuel rb = ringContents rb := by
  induction fuel generalizing rb with
  | zero =>
    have h0 : availCount rb = 0 := by omega
    simp [readWhile, ringContents, h0]
  | succ n ih =>
    unfold readWhile
    by_cases hne : rb.readPos = rb.writePos
    · have h0 : availCount rb = 0 := by unfold availCount; simp [hne]
      simp [hne, ringContents, h0]
    · rw [if_neg hne,
        ih (readAdvance rb) (readAdvance_valid rb h)
          (by have := availCount_readAdvance rb h hne; omega)]
      exact (ringContents_cons rb h hne).symm

lemma readAll_eq (rb : RingBuffer) (h : ringValid rb) : readAll rb = ringContents rb :=
  readWhile_eq rb.cap rb h (le_of_lt (availCount_lt rb h))

lemma ringIndex_ne (rb : RingBuffer) (h : ringValid rb) (i : Nat)
    (hi : i < availCount rb) : (rb.readPos + i) % rb.cap ≠ rb.writePos := by
  obtain ⟨h0, hr, hw⟩ := h
  unfold availCount at hi
  have h2 : rb.readPos + i < 2 * rb.cap := by split_ifs at hi <;> omega
  rw [mod_twoCases _ _ h0 h2]
  split_ifs at hi ⊢ <;> omega

lemma ringIndex_write (rb : RingBuffer) (h : ringValid rb) :
    (rb.readPos + availCount rb) % rb.cap = rb.writePos := by
  obtain ⟨h0, hr, hw⟩ := h
  unfold availCount
  split_ifs with hle
  · rw [Nat.mod_eq_of_lt (by omega)]
    omega
  · have he : rb.readPos + (rb.writePos + rb.cap - rb.readPos) = rb.writePos + rb.cap := by
      omega
    rw [he, Nat.add_mod_right, Nat.mod_eq_of_lt hw]

lemma collision_iff (rb : RingBuffer) (h : ringValid rb) :
    (rb.writePos + 1) % rb.cap = rb.readPos ↔ availCount rb = rb.cap - 1 := by
  obtain ⟨h0, hr, hw⟩ := h
  rw [mod_twoCases _ _ h0 (by omega)]
  unfold availCount
  split_ifs <;> omega

lemma writeSample_cap (rb : RingBuffer) (s : ℚ) : (writeSample rb s).cap = rb.cap := by
  unfold writeSample
  split <;> rfl

lemma writeSample_valid (rb : RingBuffer) (s : ℚ) (h : ringValid rb) :
    ringValid (writeSample rb s) := by
  obtain ⟨h0, hr, hw⟩ := h
  unfold writeSample
  split
  · exact ⟨h0, Nat.mod_lt _ h0, Nat.mod_lt _ h0⟩
  · exact ⟨h0, hr, Nat.mod_lt _ h0⟩

lemma update_at_writeIndex (rb : RingBuffer) (s : ℚ) (h : ringValid rb) :
    Function.update rb.buf rb.writePos (some s) ((rb.readPos + availCount rb) % rb.cap)
      = some s := by
  rw [ringIndex_write rb h]
  exact Function.update_same _ _ _

lemma ringContents_writeSample (rb : RingBuffer) (s : ℚ) (h : ringValid rb) :
    ringContents (writeSample rb s) = absStep rb.cap (ringContents rb) s := by
  have hv := h
  obtain ⟨h0, hr, hw⟩ := hv
  rw [writeSample, absStep, length_ringContents]
  split
  case isTrue hcol =>
    have havail : availCount rb = rb.cap - 1 := (collision_iff rb h).mp hcol
    rw [if_pos havail]
    by_cases hc1 : rb.cap = 1
    · -- capacity 1: the buffer is always empty after a write
      have hcl : ringContents rb = [] := by
        rw [← List.length_eq_zero, length_ringContents, havail, hc1]
      have ha'' : availCount ⟨rb.cap, Function.update rb.buf rb.writePos (some s),
          (rb.readPos + 1) % rb.cap, (rb.writePos + 1) % rb.cap⟩ = 0 := by
        unfold availCount
        simp only
        rw [hc1]
        split_ifs <;> omega
      rw [hcl, ringContents, ha'']
      simp
    · -- capacity at least 2
      have hc2 : 2 ≤ rb.cap := by omega
      have havail'' : availCount ⟨rb.cap, Function.update rb.buf rb.writePos (some s),
          (rb.readPos + 1) % rb.cap, (rb.writePos + 1) % rb.cap⟩ = rb.cap - 1 := by
        unfold availCount
        simp only
        rw [mod_twoCases (rb.readPos + 1) _ h0 (by omega),
          mod_twoCases (rb.writePos + 1) _ h0 (by omega)]
        rw [mod_twoCases (rb.writePos + 1) _ h0 (by omega)] at hcol
        split_ifs at hcol ⊢ <;> omega
      have hne : rb.readPos ≠ rb.writePos := by
        intro he
        have : availCount rb = 0 := by unfold availCount; simp [he]
        omega
      -- left side: contents of the written ring, last slot split off
      have hL : ringContents ⟨rb.cap, Function.update rb.buf rb.writePos (some s),
            (rb.readPos + 1) % rb.cap, (rb.writePos + 1) % rb.cap⟩
          = (List.range (rb.cap - 2)).map
              (fun i => Function.update rb.buf rb.writePos (some s)
                (((rb.readPos + 1) % rb.cap + i) % rb.cap))
            ++ [Function.update rb.buf rb.writePos (some s)
                (((rb.readPos + 1) % rb.cap + (rb.cap - 2)) % rb.cap)] := by
        rw [ringContents, havail'', show rb.cap - 1 = (rb.cap - 2) + 1 from by omega,
          List.range_succ, List.map_append, List.map_singleton]
      -- right side: old contents with the head dropped, new sample appended
      have hR : (ringContents rb ++ [some s]).drop 1
          = (List.range (rb.cap - 2)).map
              (fun i => rb.buf ((rb.readPos + (i + 1)) % rb.cap)) ++ [some s] := by
        rw [ringContents, havail, show rb.cap - 1 = (rb.cap - 2) + 1 from by omega,
          List.range_succ_eq_map, List.map_cons, List.map_map, List.cons_append,
          List.drop_succ_cons, List.drop_zero]
        rfl
      rw [hL, hR]
      congr 1
      · apply List.map_congr_left
        intro i hi
        rw [List.mem_range] at hi
        rw [Nat.mod_add_mod, show rb.readPos + 1 + i = rb.readPos + (i + 1) from by omega]
        exact Function.update_noteq (ringIndex_ne rb h (i + 1) (by omega)) _ _
      · rw [Nat.mod_add_mod,
          show rb.readPos + 1 + (rb.cap - 2) = rb.readPos + (rb.cap - 1) from by omega,
          ← havail]
        rw [update_at_writeIndex rb s h]
  case isFalse hcol =>
    have havail : availCount rb ≠ rb.cap - 1 := fun he => hcol ((collision_iff rb h).mpr he)
    rw [if_neg havail]
    have havail' : availCount ⟨rb.cap, Function.update rb.buf rb.writePos (some s),
        rb.readPos, (rb.writePos + 1) % rb.cap⟩ = availCount rb + 1 := by
      unfold availCount
      simp only
      rw [mod_twoCases (rb.writePos + 1) _ h0 (by omega)]
      rw [mod_twoCases (rb.writePos + 1) _ h0 (by omega)] at hcol
      split_ifs at hcol ⊢ <;> omega
    rw [ringContents, havail', List.range_succ, List.map_append, List.map_singleton,
      ringContents]
    dsimp only
    congr 1
    · apply List.map_congr_left
      intro i hi
      rw [List.mem_range] at hi
      exact Function.update_noteq (ringIndex_ne rb h i hi) _ _
    · rw [update_at_writeIndex rb s h]


lemma ringContents_writeSamples (xs : List ℚ) (rb : RingBuffer) (h : ringValid rb) :
    ringValid (writeSamples rb xs) ∧ (writeSamples rb xs).cap = rb.cap ∧
      ringContents (writeSamples rb xs) = xs.foldl (absStep rb.cap) (ringContents rb) := by
  induction xs generalizing rb with
  | nil => exact ⟨h, rfl, rfl⟩
  | cons x xs ih =>
    have h1 := writeSample_valid rb x h
    have h2 := writeSample_cap rb x
    obtain ⟨v, hc, he⟩ := ih (writeSample rb x) h1
    have hws : writeSamples rb (x :: xs) = writeSamples (writeSample rb x) xs := rfl
    refine ⟨by rw [hws]; exact v, by rw [hws, hc, h2], ?_⟩
    rw [hws, he, h2, ringContents_writeSample rb x h, List.foldl_cons]

lemma absStep_length (c : Nat) (l : List (Option ℚ)) (s : ℚ) (h : l.length ≤ c - 1) :
    (absStep c l s).length ≤ c - 1 := by
  unfold absStep
  split <;> simp <;> omega

lemma takeLast_dropHead (n : Nat) (m rest : List (Option ℚ)) (hm : m.length = n + 1) :
    takeLast n (m.drop 1 ++ rest) = takeLast n (m ++ rest) := by
  cases m with
  | nil => simp at hm
  | cons y m' =>
    have hm' : m'.length = n := by simpa using hm
    unfold takeLast
    rw [List.drop_one, List.tail_cons, List.cons_append]
    simp only [List.length_append, List.length_cons, hm']
    rw [show n + rest.length - n = rest.length from by omega,
      show n + rest.length + 1 - n = rest.length + 1 from by omega,
      List.drop_succ_cons]

lemma foldl_absStep (c : Nat) (xs : List ℚ) (l : List (Option ℚ)) (h : l.length ≤ c - 1) :
    xs.foldl (absStep c) l = takeLast (c - 1) (l ++ xs.map some) := by
  induction xs generalizing l with
  | nil =>
    unfold takeLast
    simp only [List.map_nil, List.append_nil, List.foldl_nil]
    rw [show l.length - (c - 1) = 0 from by omega, List.drop_zero]
  | cons x xs ih =>
    rw [List.foldl_cons, ih _ (absStep_length c l x h), List.map_cons]
    unfold absStep
    split
    case isTrue hlen =>
      rw [takeLast_dropHead (c - 1) (l ++ [some x]) (xs.map some) (by simp [hlen])]
      rw [List.append_assoc]
      rfl
    case isFalse hlen =>
      rw [List.append_assoc]
      rfl

lemma readAll_writeSamples (c : Nat) (xs : List ℚ) (hc : 0 < c) :
    readAll (writeSamples (freshRing c) xs) = takeLast (c - 1) (xs.map some) := by
  have hv : ringValid (freshRing c) := ⟨hc, hc, hc⟩
  obtain ⟨v, hcap, he⟩ := ringContents_writeSamples xs (freshRing c) hv
  have h0 : ringContents (freshRing c) = [] := by
    rw [← List.length_eq_zero, length_ringContents]
    rfl
  have hcap' : (freshRing c).cap = c := rfl
  rw [readAll_eq _ v, he, hcap', h0, foldl_absStep c xs [] (by simp), List.nil_append]

lemma bigInput_length : bigInput.length = 48001 := by
  rw [bigInput, List.length_map, List.length_range]

/-- C1 (amended): writing `N > capacity` samples into the Audio Ring Buffer
(writes advance the read position by one whenever the new write position
would equal it) leaves exactly `capacity - 1` most-recent samples
retrievable, in write order, by repeatedly reading while the read position
differs from the write position; every slot so read holds a previously
written sample (no read observes a never-written slot — the result is the
`some`-image of a suffix of the writes).  The original claim said
`capacity` samples remain; in fact the write that fills the buffer pushes
the read position past the oldest written slot, so `capacity - 1` remain. -/
theorem c1_ring_overwrite_amended (c : Nat) (xs : List ℚ) (hc : 0 < c)
    (hx : c < xs.length) :
    readAll (writeSamples (freshRing c) xs)
        = (xs.drop (xs.length - (c - 1))).map some ∧
      (readAll (writeSamples (freshRing c) xs)).length = c - 1 := by
  have h := readAll_writeSamples c xs hc
  constructor
  · rw [h]
    unfold takeLast
    rw [List.length_map, List.map_drop]
  · rw [h]
    unfold takeLast
    simp only [List.length_drop, List.length_map]
    omega

/-- C1 witness: the amended statement instantiated at the module's real
capacity 48000 with 48001 writes. -/
theorem c1_ring_overwrite_amended_witness :
    0 < 48000 ∧ 48000 < bigInput.length ∧
      (readAll (writeSamples (freshRing 48000) bigInput)
          = (bigInput.drop (bigInput.length - (48000 - 1))).map some ∧
        (readAll (writeSamples (freshRing 48000) bigInput)).length = 48000 - 1) :=
  ⟨by norm_num, by rw [bigInput_length]; norm_num,
    c1_ring_overwrite_amended 48000 bigInput (by norm_num)
      (by rw [bigInput_length]; norm_num)⟩

/-- C1 counterexample to the original claim: at capacity 48000, after
writing 48001 samples (one more than the capacity), repeatedly reading
while the positions differ yields 47999 samples — not `capacity = 48000`
as the claim states. -/
theorem c1_ring_overwrite_counterexample :
    (readAll (writeSamples (freshRing 48000) bigInput)).length = 47999 ∧
      (readAll (writeSamples (freshRing 48000) bigInput)).length ≠ 48000 := by
  have h := readAll_writeSamples 48000 bigInput (by norm_num)
  have hlen : bigInput.length = 48001 := bigInput_length
  rw [h]
  unfold takeLast
  simp only [List.length_drop, List.length_map, hlen]
  norm_num

/-! ## Resampler lemmas: behaviour on an empty ring -/

lemma advanceLoop_empty (n : Nat) (rb : RingBuffer) (last : ℚ)
    (h : rb.readPos = rb.writePos) : advanceLoop n rb last = (rb, last) := by
  induction n with
  | zero => rfl
  | succ n ih => rw [advanceLoop, if_neg (by simp [h]), ih]

lemma getResampledAudio_empty (rate : ℚ) (s : ModuleState)
    (h : s.ring.readPos = s.ring.writePos) :
    (getResampledAudio rate s).1 = s.lastSample ∧
      (getResampledAudio rate s).2.ring = s.ring ∧
      (getResampledAudio rate s).2.lastSample = s.lastSample := by
  by_cases h1 : 1 ≤ s.resamplePhase + 12000 / rate
  · simp only [getResampledAudio, if_pos h1, advanceLoop_empty _ _ _ h]
    simp [h]
  · simp only [getResampledAudio, if_neg h1]
    simp [h]

lemma pullK_empty (rate : ℚ) (k : Nat) (s : ModuleState)
    (h : s.ring.readPos = s.ring.writePos) :
    pullK rate k s = List.replicate k s.lastSample := by
  induction k generalizing s with
  | zero => rfl
  | succ k ih =>
    obtain ⟨h1, h2, h3⟩ := getResampledAudio_empty rate s h
    simp only [pullK]
    rw [h1, ih _ (by rw [h2]; exact h), h3, List.replicate_succ]

/-- C9 (amended): for every resampler state whose ring buffer is empty
(read position equals write position) and every K, pulling K consecutive
output samples returns the held `lastSample` value K times (the buffer
stays empty throughout, so the hold persists); in the initial state —
where no sample was ever consumed — that held value is 0.  The original
claim's converse direction ("the output is 0 only if no sample was ever
consumed") is false: consuming a 0-valued sample also holds 0 (see the
counterexample). -/
theorem c9_resampler_underrun_amended (s : ModuleState) (rate : ℚ) (k : Nat)
    (h : s.ring.readPos = s.ring.writePos) :
    pullK rate k s = List.replicate k s.lastSample ∧ initModule.lastSample = 0 :=
  ⟨pullK_empty rate k s h, rfl⟩

/-- C9 witness: three pulls at engine rate 48000 from the fresh module
state return the held value (0) three times. -/
theorem c9_resampler_underrun_amended_witness :
    initModule.ring.readPos = initModule.ring.writePos ∧
      (pullK 48000 3 initModule = List.replicate 3 initModule.lastSample ∧
        initModule.lastSample = 0) :=
  ⟨rfl, c9_resampler_underrun_amended initModule 48000 3 rfl⟩

/-- C9 counterexample to the original claim's last clause ("the output is
0 only if no sample was ever consumed from the buffer"): write the single
sample 0 into the fresh module, then pull once at engine rate 12000
(ratio exactly 1).  The pull consumes the written sample — the read
position advances from 0 to 1, reaching the write position — and outputs
0; pulling the now-empty buffer again also outputs 0.  So an output of 0
does not imply that no sample was ever consumed. -/
theorem c9_resampler_underrun_counterexample :
    (writeToModule initModule [0]).ring.readPos = 0 ∧
      (writeToModule initModule [0]).ring.writePos = 1 ∧
      (getResampledAudio 12000 (writeToModule initModule [0])).2.ring.readPos = 1 ∧
      (getResampledAudio 12000 (writeToModule initModule [0])).1 = 0 ∧
      (getResampledAudio 12000
        ((getResampledAudio 12000 (writeToModule initModule [0])).2)).1 = 0 := by
  norm_num [writeToModule, initModule, freshRing, writeSamples, writeSample,
    getResampledAudio, advanceLoop, readAdvance, slotValue, Function.update_apply]

/-! ## PCM decoding lemmas (claims C5 and C8) -/

lemma bytesToSample_range (lo hi : Nat) (hlo : lo < 256) (hhi : hi < 256) :
    -32768 ≤ bytesToSample lo hi ∧ bytesToSample lo hi < 32768 := by
  unfold bytesToSample
  split <;> omega

lemma normalized_range (v : ℤ) (h1 : -32768 ≤ v) (h2 : v < 32768) :
    -1 ≤ (v : ℚ) / 32768 ∧ (v : ℚ) / 32768 < 1 := by
  constructor
  · rw [le_div_iff₀ (by norm_num : (0:ℚ) < 32768)]
    have hc : ((-32768 : ℤ) : ℚ) ≤ (v : ℚ) := by exact_mod_cast h1
    push_cast at hc
    linarith
  · rw [div_lt_one (by norm_num : (0:ℚ) < 32768)]
    exact_mod_cast h2

lemma pcmDecode_range (n : Nat) (data : List Nat) (hlen : data.length ≤ n)
    (hb : ∀ b ∈ data, b < 256) : ∀ q ∈ pcmDecode data, -1 ≤ q ∧ q < 1 := by
  induction n generalizing data with
  | zero =>
    have : data = [] := List.eq_nil_of_length_eq_zero (by omega)
    subst this
    intro q hq
    simp [pcmDecode] at hq
  | succ n ih =>
    rcases data with _ | ⟨lo, _ | ⟨hi, rest⟩⟩
    · intro q hq
      simp [pcmDecode] at hq
    · intro q hq
      simp [pcmDecode] at hq
    · intro q hq
      rw [pcmDecode] at hq
      rcases List.mem_cons.mp hq with hcase | hcase
      · subst hcase
        obtain ⟨hl, hr⟩ := bytesToSample_range lo hi (hb lo (by simp)) (hb hi (by simp))
        exact normalized_range _ hl hr
      · refine ih rest ?_ (fun b hbm => hb b (by simp [hbm])) q hcase
        simp at hlen
        omega

/-- C5 (confirmed): for a binary-frame payload that does not begin with
"MSG ", `processAudioPacket` interprets each consecutive little-endian
byte pair as a signed 16-bit sample divided by 32768, all resulting values
lie in [-1, 1), and the specific 4-byte payload [0x00,0x40,0x00,0xC0]
yields exactly the two samples 1/2 and -1/2 handed to the audio callback. -/
theorem c5_pcm_normalization (data : List Nat) (hb : ∀ b ∈ data, b < 256)
    (hmsg : data.take 4 ≠ msgPrefixBytes) :
    processAudioPacket data = pcmDecode data ∧
      (∀ q ∈ processAudioPacket data, -1 ≤ q ∧ q < 1) ∧
      processAudioPacket [0x00, 0x40, 0x00, 0xC0] = [1/2, -1/2] := by
  have he : processAudioPacket data = pcmDecode data := by
    unfold processAudioPacket
    rw [if_neg (fun hcon => hmsg hcon.2)]
  refine ⟨he, ?_, ?_⟩
  · rw [he]
    exact pcmDecode_range data.length data le_rfl hb
  · norm_num [processAudioPacket, pcmDecode, bytesToSample, msgPrefixBytes]

/-- C5 witness: the theorem instantiated at the payload of the spec's
scenario, [0x00,0x40,0x00,0xC0]. -/
theorem c5_pcm_normalization_witness :
    (∀ b ∈ [0x00, 0x40, 0x00, 0xC0], b < 256) ∧
      [0x00, 0x40, 0x00, 0xC0].take 4 ≠ msgPrefixBytes ∧
      (processAudioPacket [0x00, 0x40, 0x00, 0xC0] = pcmDecode [0x00, 0x40, 0x00, 0xC0] ∧
        (∀ q ∈ processAudioPacket [0x00, 0x40, 0x00, 0xC0], -1 ≤ q ∧ q < 1) ∧
        processAudioPacket [0x00, 0x40, 0x00, 0xC0] = [1/2, -1/2]) :=
  ⟨by decide, by decide, c5_pcm_normalization _ (by decide) (by decide)⟩

/-- C8 (amended): a binary payload strictly longer than 4 bytes that
begins with the four ASCII bytes "MSG " is treated as a control message:
`processAudioPacket` produces no samples, and since the audio callback is
invoked only on a nonempty sample batch, it is not invoked.  The original
claim's "regardless of the payload's total length" is wrong: the skip
requires `len > 4`, so the 4-byte payload consisting of exactly "MSG " is
decoded as PCM (see the counterexample). -/
theorem c8_msg_control_amended (data : List Nat) (hlen : 4 < data.length)
    (hpre : data.take 4 = msgPrefixBytes) : processAudioPacket data = [] := by
  unfold processAudioPacket
  rw [if_pos ⟨hlen, hpre⟩]

/-- C8 witness: a 5-byte payload "MSG \x00" is skipped. -/
theorem c8_msg_control_amended_witness :
    4 < [0x4D, 0x53, 0x47, 0x20, 0x00].length ∧
      [0x4D, 0x53, 0x47, 0x20, 0x00].take 4 = msgPrefixBytes ∧
      processAudioPacket [0x4D, 0x53, 0x47, 0x20, 0x00] = [] :=
  ⟨by decide, by decide, c8_msg_control_amended _ (by decide) (by decide)⟩

/-- C8 counterexample: the payload of exactly the 4 bytes "MSG " begins
with "MSG ", yet it is NOT ignored: the `len > 4` guard fails, the bytes
are decoded as the two PCM samples 21325/32768 and 8263/32768, and the
nonempty batch means the audio callback IS invoked — contradicting the
claim's "regardless of the payload's total length". -/
theorem c8_msg_control_counterexample :
    [0x4D, 0x53, 0x47, 0x20].take 4 = msgPrefixBytes ∧
      processAudioPacket [0x4D, 0x53, 0x47, 0x20] = [21325/32768, 8263/32768] ∧
      processAudioPacket [0x4D, 0x53, 0x47, 0x20] ≠ [] := by
  refine ⟨by decide, ?_, ?_⟩
  · norm_num [processAudioPacket, pcmDecode, bytesToSample, msgPrefixBytes]
  · norm_num [processAudioPacket, pcmDecode, bytesToSample, msgPrefixBytes]
    simp

/-! ## Receive-loop frame handling (claims C2, C4, C6) -/

/-- C2 (amended): the receive loop has no "Incomplete" outcome and never
waits for more bytes.  For a buffer holding the complete 2-byte header of
an unmasked binary frame whose declared 7-bit payload length exceeds the
payload bytes actually available, the frame is dispatched immediately with
the payload truncated to the available bytes
(`dataLen = min(payloadLen, received - headerLen)`): a truncated audio
payload IS dispatched to `processAudioPacket`.  (Only when not a single
payload byte follows the header is nothing dispatched.)  This contradicts
the original claim that such a frame is held back with nothing consumed. -/
theorem c2_truncated_dispatch_amended (buffer : List Nat)
    (h3 : 3 ≤ buffer.length)
    (hop : byteAt buffer 0 % 16 = 2)
    (hmask : byteAt buffer 1 / 128 % 2 = 0)
    (hlen7a : byteAt buffer 1 % 128 ≠ 126)
    (hlen7b : byteAt buffer 1 % 128 ≠ 127)
    (hdecl : buffer.length - 2 < byteAt buffer 1 % 128) :
    handleReceived buffer = .audio (processAudioPacket (buffer.drop 2)) := by
  have hm : (decide (byteAt buffer 1 / 128 % 2 = 1)) = false :=
    decide_eq_false (by omega)
  simp only [handleReceived, dispatchFrame]
  rw [if_pos (by omega : 2 ≤ buffer.length),
    if_neg (fun hcon => hlen7a hcon.1),
    if_neg (fun hcon => hlen7b hcon.1),
    hm,
    if_pos (⟨rfl, by omega⟩ : (false = false) ∧ 2 < buffer.length),
    if_pos hop]
  congr 1
  rw [show min (byteAt buffer 1 % 128) (buffer.length - 2) = buffer.length - 2 from by omega]
  have hd : (buffer.drop 2).length ≤ buffer.length - 2 := by
    rw [List.length_drop]
  exact congrArg processAudioPacket (List.take_of_length_le hd)

/-- C2 witness: the amended statement at the 4-byte buffer
[0x82, 0x04, 0x00, 0x40] — an unmasked binary header declaring 4 payload
bytes with only 2 available. -/
theorem c2_truncated_dispatch_amended_witness :
    3 ≤ [0x82, 0x04, 0x00, 0x40].length ∧
      byteAt [0x82, 0x04, 0x00, 0x40] 0 % 16 = 2 ∧
      byteAt [0x82, 0x04, 0x00, 0x40] 1 / 128 % 2 = 0 ∧
      byteAt [0x82, 0x04, 0x00, 0x40] 1 % 128 ≠ 126 ∧
      byteAt [0x82, 0x04, 0x00, 0x40] 1 % 128 ≠ 127 ∧
      [0x82, 0x04, 0x00, 0x40].length - 2 < byteAt [0x82, 0x04, 0x00, 0x40] 1 % 128 ∧
      handleReceived [0x82, 0x04, 0x00, 0x40]
        = .audio (processAudioPacket ([0x82, 0x04, 0x00, 0x40].drop 2)) :=
  ⟨by decide, by decide, by decide, by decide, by decide, by decide,
    c2_truncated_dispatch_amended _ (by decide) (by decide) (by decide) (by decide)
      (by decide) (by decide)⟩

/-- C2 counterexample to the original claim: the buffer
[0x82, 0x04, 0x00, 0x40] holds a complete unmasked binary header that
declares 4 payload bytes while only 2 are available; the claim says no
frame is emitted (Incomplete), but the code dispatches an audio frame with
the truncated 2-byte payload, yielding the sample 1/2. -/
theorem c2_truncated_dispatch_counterexample :
    byteAt [0x82, 0x04, 0x00, 0x40] 1 % 128 = 4 ∧
      [0x82, 0x04, 0x00, 0x40].length - 2 = 2 ∧
      handleReceived [0x82, 0x04, 0x00, 0x40] = .audio [1/2] ∧
      handleReceived [0x82, 0x04, 0x00, 0x40] ≠ .dropped := by
  refine ⟨by decide, by decide, ?_, ?_⟩
  · norm_num [handleReceived, dispatchFrame, byteAt, processAudioPacket, pcmDecode,
      bytesToSample, msgPrefixBytes]
  · intro hcon
    have : handleReceived [0x82, 0x04, 0x00, 0x40] = .audio [1/2] := by
      norm_num [handleReceived, dispatchFrame, byteAt, processAudioPacket, pcmDecode,
        bytesToSample, msgPrefixBytes]
    rw [this] at hcon
    exact RecvAction.noConfusion hcon

/-- C6 (amended): an inbound frame whose 7-bit length field is 127 (the
64-bit extended length class) is discarded without a crash and without
closing the connection — but only when at least 10 bytes arrived in the
`recv` (the code requires `received >= 10` to take the skip branch).
When fewer than 10 bytes arrived, the frame is NOT treated as Malformed:
it falls through and is dispatched with 127 itself taken as the payload
length (see the counterexample). -/
theorem c6_large_length_amended (buffer : List Nat)
    (h10 : 10 ≤ buffer.length) (h127 : byteAt buffer 1 % 128 = 127) :
    handleReceived buffer = .skippedLarge ∧ handleReceived buffer ≠ .close := by
  have he : handleReceived buffer = .skippedLarge := by
    simp only [handleReceived]
    rw [if_pos (by omega : 2 ≤ buffer.length),
      if_neg (fun hcon => by rw [h127] at hcon; exact absurd hcon.1 (by norm_num)),
      if_pos ⟨h127, h10⟩]
  refine ⟨he, ?_⟩
  rw [he]
  intro hcon
  exact RecvAction.noConfusion hcon

/-- C6 witness: the amended statement at a 10-byte buffer with the 7-bit
length field 127. -/
theorem c6_large_length_amended_witness :
    10 ≤ [0x82, 0x7F, 0, 0, 0, 0, 0, 0, 0, 0].length ∧
      byteAt [0x82, 0x7F, 0, 0, 0, 0, 0, 0, 0, 0] 1 % 128 = 127 ∧
      (handleReceived [0x82, 0x7F, 0, 0, 0, 0, 0, 0, 0, 0] = .skippedLarge ∧
        handleReceived [0x82, 0x7F, 0, 0, 0, 0, 0, 0, 0, 0] ≠ .close) :=
  ⟨by decide, by decide, c6_large_length_amended _ (by decide) (by decide)⟩

/-- C6 counterexample to the original claim: the 4-byte buffer
[0x82, 0x7F, 0x00, 0x40] declares the 64-bit extended length class
(7-bit field = 127), but because fewer than 10 bytes arrived the code does
NOT discard it as Malformed: it processes the frame with payload length
127 clamped to the 2 available bytes and dispatches the audio sample 1/2. -/
theorem c6_large_length_counterexample :
    byteAt [0x82, 0x7F, 0x00, 0x40] 1 % 128 = 127 ∧
      handleReceived [0x82, 0x7F, 0x00, 0x40] = .audio [1/2] ∧
      handleReceived [0x82, 0x7F, 0x00, 0x40] ≠ .skippedLarge := by
  refine ⟨by decide, ?_, ?_⟩
  · norm_num [handleReceived, dispatchFrame, byteAt, processAudioPacket, pcmDecode,
      bytesToSample, msgPrefixBytes]
  · intro hcon
    have : handleReceived [0x82, 0x7F, 0x00, 0x40] = .audio [1/2] := by
      norm_num [handleReceived, dispatchFrame, byteAt, processAudioPacket, pcmDecode,
        bytesToSample, msgPrefixBytes]
    rw [this] at hcon
    exact RecvAction.noConfusion hcon

lemma byteAt_set_zero (l : List Nat) (v j : Nat) (hj : j ≠ 0) :
    byteAt (l.set 0 v) j = byteAt l j := by
  unfold byteAt
  simp [List.getD_eq_getElem?_getD, List.getElem?_set_ne (Ne.symm hj)]

lemma dispatchFrame_pong (buffer : List Nat) (payloadLen headerLen opcode : Nat)
    (masked : Bool) (p : List Nat)
    (h : dispatchFrame buffer payloadLen headerLen opcode masked = .pong p) :
    masked = false ∧ p = buffer.set 0 0x8A := by
  simp only [dispatchFrame] at h
  split_ifs at h with hg ho2 ho1 hcs ho9 ho8
  all_goals
    first
      | exact RecvAction.noConfusion h
      | (injection h with hp
         exact ⟨hg.1, hp.symm⟩)

lemma handleReceived_pong (buffer : List Nat) (p : List Nat)
    (h : handleReceived buffer = .pong p) :
    (decide (byteAt buffer 1 / 128 % 2 = 1)) = false ∧ p = buffer.set 0 0x8A := by
  simp only [handleReceived] at h
  split_ifs at h with hlen hext hskip
  all_goals
    first
      | exact RecvAction.noConfusion h
      | exact dispatchFrame_pong _ _ _ _ _ _ h

/-- C4 (amended): every command frame built by `sendWebSocketFrame` is
masked with the fixed 4-byte key and uses only the 7-bit inline length
form — byte 1 is `0x80 | length` with the MASK bit set and the length
field equal to the payload length, bytes 2-5 are the fixed mask key, and
the payload is XOR-masked; payloads of 126 bytes or more are refused
(`none`).  The Pong reply, however, is NOT masked: it echoes the received
ping bytes with only byte 0 replaced by 0x8A, and since only unmasked
inbound frames are dispatched, the echoed MASK bit is always 0.  This
contradicts the original claim that the Pong reply is masked. -/
theorem c4_outbound_masking_amended :
    (∀ data out, sendWebSocketFrame data = some out →
        out = 0x81 :: (0x80 + data.length) :: (maskKey ++ maskBytes data) ∧
          data.length < 126 ∧
          byteAt out 1 / 128 % 2 = 1 ∧
          byteAt out 1 % 128 = data.length) ∧
      (∀ data, 126 ≤ data.length → sendWebSocketFrame data = none) ∧
      (∀ buffer p, handleReceived buffer = .pong p → byteAt p 1 / 128 % 2 = 0) := by
  refine ⟨?_, ?_, ?_⟩
  · intro data out h
    unfold sendWebSocketFrame at h
    split_ifs at h with hlen
    · injection h with h
      subst h
      refine ⟨rfl, hlen, ?_, ?_⟩
      · show (0x80 + data.length) / 128 % 2 = 1
        omega
      · show (0x80 + data.length) % 128 = data.length
        omega
  · intro data h
    unfold sendWebSocketFrame
    rw [if_neg (by omega)]
  · intro buffer p h
    obtain ⟨hm, hp⟩ := handleReceived_pong buffer p h
    have hmask : ¬ byteAt buffer 1 / 128 % 2 = 1 := of_decide_eq_false hm
    subst hp
    rw [byteAt_set_zero _ _ _ (by norm_num)]
    omega

/-- C4 witness: the three parts of the amended statement instantiated — a
3-byte command is framed masked with the 7-bit form, a 126-byte command is
refused, and the Pong reply to the ping [0x89, 0x01, 0x42] is unmasked. -/
theorem c4_outbound_masking_amended_witness :
    sendWebSocketFrame (List.replicate 126 0) = none ∧
      byteAt (0x81 :: (0x80 + [1, 2, 3].length) :: (maskKey ++ maskBytes [1, 2, 3])) 1
          / 128 % 2 = 1 ∧
      byteAt [0x8A, 0x01, 0x42] 1 / 128 % 2 = 0 :=
  ⟨c4_outbound_masking_amended.2.1 _ (by simp),
   (c4_outbound_masking_amended.1 [1, 2, 3] _ rfl).2.2.1,
   c4_outbound_masking_amended.2.2 [0x89, 0x01, 0x42] _ (by decide)⟩

/-- C4 counterexample to the original claim: the Ping frame
[0x89, 0x01, 0x42] is answered by sending back [0x8A, 0x01, 0x42] — the
received bytes with byte 0 replaced by 0x8A.  Byte 1 of that transmitted
frame is 0x01: its MASK bit is 0 and no mask key is applied, so a frame
the client transmits is NOT masked, contradicting the claim. -/
theorem c4_outbound_masking_counterexample :
    handleReceived [0x89, 0x01, 0x42] = .pong [0x8A, 0x01, 0x42] ∧
      byteAt [0x8A, 0x01, 0x42] 1 / 128 % 2 = 0 := by
  constructor
  · decide
  · decide

/-! ## Substring and handshake lemmas (claim C7) -/

lemma listStartsWith_append {α : Type} [DecidableEq α] (p l l2 : List α)
    (h : listStartsWith p l = true) : listStartsWith p (l ++ l2) = true := by
  induction p generalizing l with
  | nil => rfl
  | cons a p ih =>
    cases l with
    | nil => simp [listStartsWith] at h
    | cons x xs =>
      rw [List.cons_append]
      rw [listStartsWith] at h ⊢
      split_ifs at h ⊢ with hax
      exact ih xs h

lemma containsSub_nilNeedle {α : Type} [DecidableEq α] (l : List α) :
    containsSub ([] : List α) l = true := by
  cases l with
  | nil => rfl
  | cons x xs =>
    rw [containsSub]
    simp [listStartsWith]

lemma containsSub_append {α : Type} [DecidableEq α] (needle l l2 : List α)
    (h : containsSub needle l = true) : containsSub needle (l ++ l2) = true := by
  induction l with
  | nil =>
    rw [containsSub] at h
    cases needle with
    | nil => exact containsSub_nilNeedle l2
    | cons a p => simp [listStartsWith] at h
  | cons x xs ih =>
    rw [containsSub] at h
    rcases Bool.or_eq_true_iff.mp h with h1 | h2
    · have h3 := listStartsWith_append needle (x :: xs) l2 h1
      rw [List.cons_append] at h3 ⊢
      rw [containsSub, h3]
      simp
    · rw [List.cons_append, containsSub, ih h2]
      simp

lemma containsSub_takeWhile {α : Type} [DecidableEq α] (needle l : List α) (p : α → Bool)
    (h : containsSub needle (l.takeWhile p) = true) : containsSub needle l = true := by
  have h2 := containsSub_append needle (l.takeWhile p) (l.dropWhile p) h
  rwa [List.takeWhile_append_dropWhile] at h2

/-- C7 (confirmed): whenever the handshake response does not contain the
substring "101 Switching Protocols", `connect` returns failure, the
session ends with `connected = false` (so `isConnected()` is false), the
Receive Loop thread is never started, and no post-upgrade command is sent. -/
theorem c7_handshake_failure (response : List Char)
    (h : containsSub needle101 response = false) :
    processHandshakeResponse response
      = { success := false, connected := false, receiveLoopStarted := false,
          commandsSent := [] } := by
  unfold processHandshakeResponse
  rw [if_neg]
  rintro ⟨hlen, hsub⟩
  have h2 := containsSub_takeWhile needle101 response _ hsub
  rw [h] at h2
  exact Bool.noConfusion h2

/-- C7 witness: the spec's scenario — a server answering
"HTTP/1.1 404 Not Found" — yields failure, no connection, no thread. -/
theorem c7_handshake_failure_witness :
    containsSub needle101 "HTTP/1.1 404 Not Found".toList = false ∧
      processHandshakeResponse "HTTP/1.1 404 Not Found".toList
        = { success := false, connected := false, receiveLoopStarted := false,
            commandsSent := [] } :=
  ⟨by decide, c7_handshake_failure _ (by decide)⟩

/-! ## disconnect() ordering (claim C3) -/

/-- C3 (amended): `disconnect()` first raises the stop flag (first event of
the trace) and the join of the Receive Loop completes before `disconnect`
returns (the join is the last event of the trace, so every statement of
`disconnect` — in particular the return — comes after it; with the loop
joined, no Audio Ring Buffer write can occur after `disconnect` returns).
However, against the original claim, the socket handle is closed and
invalidated BEFORE the join, not after it: the trace order is stop flag,
clear connected, close socket, invalidate handle, join. -/
theorem c3_disconnect_order_amended :
    disconnectTrace true true
        = [.raiseStopFlag, .clearConnected, .closeSocket, .invalidateSocket, .joinThread] ∧
      (disconnectTrace true true).indexOf .raiseStopFlag = 0 ∧
      (disconnectTrace true true).getLast? = some .joinThread := by
  refine ⟨rfl, ?_, rfl⟩
  decide

/-- C3 counterexample to the original claim: the claim requires the join
of the Receive Loop to happen before the socket handle is invalidated; in
the code's statement trace the invalidation (index 3) strictly precedes
the join (index 4). -/
theorem c3_disconnect_order_counterexample :
    (disconnectTrace true true).indexOf .invalidateSocket
        < (disconnectTrace true true).indexOf .joinThread := by
  decide

/-! ## Tuning command lemmas (claim C10) -/

lemma modOfList_setFrequencyPre (rest : List Char) :
    modOfList ("SET mod=am low_cut=-4000 high_cut=4000 freq=".toList ++ rest)
      = some ['a', 'm'] := rfl

lemma string_toList_append (a b : String) : (a ++ b).toList = a.toList ++ b.toList := by
  simp [String.toList, String.data_append]

lemma modOf_setFrequencyCmd (freq : ℚ) : modOf (setFrequencyCmd freq) = some ['a', 'm'] := by
  unfold modOf setFrequencyCmd
  rw [string_toList_append]
  exact modOfList_setFrequencyPre _

/-- C10 (confirmed): for every frequency `f`, `setFrequency(f)` while
connected transmits the single command
`"SET mod=am low_cut=-4000 high_cut=4000 freq=" ++ <f/1000 to 3 decimals>`,
whose `mod=` token is `am`; consequently, whatever demodulation mode a
prior `setMode` command had selected (e.g. `usb`), the server's mode after
the next frequency change is back to `am`. -/
theorem c10_setFrequency_resets_mode (mode : String) (freq : ℚ) (cur : List Char) :
    setFrequencySend true freq = some (setFrequencyCmd freq) ∧
      setFrequencyCmd freq
        = "SET mod=am low_cut=-4000 high_cut=4000 freq=" ++ fmtFixed3 (freq / 1000) ∧
      modOf (setFrequencyCmd freq) = some ['a', 'm'] ∧
      applyMod (applyMod cur (setModeCmd mode)) (setFrequencyCmd freq) = ['a', 'm'] ∧
      applyMod cur (setModeCmd "usb") = ['u', 's', 'b'] := by
  refine ⟨rfl, rfl, modOf_setFrequencyCmd freq, ?_, ?_⟩
  · unfold applyMod
    rw [modOf_setFrequencyCmd freq]
    rfl
  · rfl

end WebSDR
